import Mathlib

/-!
Verification of the weekly market-outlook bot (`main.py`).

Python strings are modelled as `List Char` (one element per code point, matching
Python's `len`, slicing and iteration on `str`).  All inputs exercised by the
claims are ASCII apart from a few emoji, for which `Char.toLower` and
`Char.isWhitespace` agree with Python's `str.lower` / `str.strip` / `str.split`.
Machine integers do not overflow anywhere in the program (scores are small),
so scores are modelled as `Int` exactly as Python `int`.
Fallible code (Python exceptions) is modelled with `Option`/`Except`.
-/

/-- Convert a Lean string literal to the `List Char` model of a Python `str`. -/
def lchars (s : String) : List Char := s.toList

/-- Python `str.lower()` (ASCII inputs). -/
def lowerL (s : List Char) : List Char := s.map Char.toLower

/-- Python `pattern in text` substring test (`text` scanned left to right). -/
def hasSub (pat : List Char) : List Char → Bool
  | [] => pat.isEmpty
  | c :: t => pat.isPrefixOf (c :: t) || hasSub pat t

/-- Accumulator for `wordsOf`: words of a string under Python `str.split()`
(split on whitespace runs, no empty words).  `acc` holds the current word
reversed. -/
def wordsAux (acc : List Char) : List Char → List (List Char)
  | [] => if acc.isEmpty then [] else [acc.reverse]
  | c :: t =>
    if c.isWhitespace then
      if acc.isEmpty then wordsAux [] t else acc.reverse :: wordsAux [] t
    else wordsAux (c :: acc) t

/-- Python `str.split()` (no separator argument). -/
def wordsOf (s : List Char) : List (List Char) := wordsAux [] s

/-- Python `set(s.split())`, as a duplicate-free list; its length is the set
cardinality. -/
def wordSet (s : List Char) : List (List Char) := (wordsOf s).dedup

/-- `len(A & B)` for the word sets `A`, `B` (both duplicate-free). -/
def interCount (a b : List (List Char)) : Nat :=
  (a.filter (fun w => decide (w ∈ b))).length

/-- Python `str.strip()` (ASCII whitespace). -/
def trimL (s : List Char) : List Char :=
  ((s.dropWhile Char.isWhitespace).reverse.dropWhile Char.isWhitespace).reverse

/-- Python `text.split(sep)` for a two-character separator `[a, b]`
(leftmost non-overlapping matches, empty pieces kept). -/
def splitOn2 (a b : Char) : List Char → List (List Char)
  | [] => [[]]
  | [c] => [[c]]
  | c :: d :: rest =>
    if c = a ∧ d = b then [] :: splitOn2 a b rest
    else match splitOn2 a b (d :: rest) with
      | [] => [[c]]
      | h :: t => (c :: h) :: t

/-- Join with a separator, inverse of splitting. -/
def joinSep (sep : List Char) : List (List Char) → List Char
  | [] => []
  | [x] => x
  | x :: y :: t => x ++ sep ++ joinSep sep (y :: t)

/-- The normalized article record built by the fetchers (`main.py`
`_fetch_from_newsapi` / `_fetch_from_rss`). -/
structure Article where
  title : List Char
  description : List Char
  url : List Char
  source : List Char
  published_at : List Char
  relevance_score : Int
  deriving DecidableEq, Repr

/-- `self.watchlist` from `WeeklyOutlookBot.__init__`. -/
def watchlist : List (List Char) :=
  [lchars "SPY", lchars "QQQ", lchars "IWM", lchars "DIA",
   lchars "AAPL", lchars "MSFT", lchars "GOOGL", lchars "AMZN", lchars "TSLA",
   lchars "NVDA", lchars "META",
   lchars "XLF", lchars "XLE", lchars "XLK", lchars "XLV", lchars "XLI"]

/-- `high_keywords` from `_calculate_relevance`. -/
def high_keywords : List (List Char) :=
  [lchars "federal reserve", lchars "fed", lchars "interest rate",
   lchars "inflation", lchars "gdp", lchars "unemployment",
   lchars "earnings", lchars "guidance", lchars "outlook", lchars "forecast",
   lchars "economic data", lchars "jobs report",
   lchars "fomc", lchars "ppi", lchars "cpi", lchars "retail sales",
   lchars "manufacturing", lchars "consumer confidence"]

/-- `medium_keywords` from `_calculate_relevance`. -/
def medium_keywords : List (List Char) :=
  [lchars "merger", lchars "acquisition", lchars "ipo", lchars "analyst",
   lchars "upgrade", lchars "downgrade",
   lchars "dividend", lchars "split", lchars "buyback", lchars "guidance",
   lchars "revenue", lchars "profit"]

/-- `weekly_keywords` from `_calculate_relevance`. -/
def weekly_keywords : List (List Char) :=
  [lchars "week ahead", lchars "outlook", lchars "forecast", lchars "preview",
   lchars "expectations",
   lchars "trend", lchars "momentum", lchars "technical analysis",
   lchars "support", lchars "resistance"]

/-- One scoring pass of `_calculate_relevance`: add `w` for each element of
`ks` satisfying `p` (Python `for keyword in ks: if p(keyword): score += w`). -/
def scorePass (w : Int) (p : List Char → Bool) (ks : List (List Char)) (s : Int) : Int :=
  ks.foldl (fun acc k => if p k then acc + w else acc) s

/-- `_calculate_relevance(article)` with `article = {title, description}`:
`text = f"{title} {description}".lower()`, then the four keyword passes. -/
def calculate_relevance (title description : List Char) : Int :=
  let text := lowerL (title ++ [' '] ++ description)
  let s1 := scorePass 4 (fun k => hasSub k text) high_keywords 0
  let s2 := scorePass 2 (fun k => hasSub k text) medium_keywords s1
  let s3 := scorePass 3 (fun k => hasSub k text) weekly_keywords s2
  scorePass 3
    (fun sym => hasSub (lowerL sym) text || hasSub ('$' :: lowerL sym) text)
    watchlist s3

/-- The inner loop of `_deduplicate_articles`: scan the already-seen
(lowercased) titles and report whether some seen title overlaps.  The Python
float comparison `len(tw & sw) / max(len(tw), len(sw)) > 0.7` is modelled
exactly as `10 * inter > 7 * max`; for the set sizes arising here the double
rounding of `0.7` and of the quotient never changes the comparison, since the
only rational with a small denominator within double-precision distance of
`0.7` is `7/10` itself, and `7/10` rounds to the same double as the literal
`0.7`.  `max = 0` is Python's `ZeroDivisionError`, modelled as `Except.error`. -/
def dupScan (titleWords : List (List Char)) : List (List Char) → Except Unit Bool
  | [] => Except.ok false
  | seenTitle :: rest =>
    let seenWords := wordSet seenTitle
    let m := max titleWords.length seenWords.length
    if m = 0 then Except.error ()
    else if 10 * interCount titleWords seenWords > 7 * m then Except.ok true
    else dupScan titleWords rest

/-- Main loop of `_deduplicate_articles`; `seen` is the list of accepted
lowercased titles (Python keeps a `set`, but the scan result and the error
cases do not depend on iteration order, and a title equal to a seen one is
never accepted again, so insertion order is faithful), `acc` the accepted
articles reversed. -/
def dedupGo : List Article → List (List Char) → List Article → Except Unit (List Article)
  | [], _, acc => Except.ok acc.reverse
  | a :: rest, seen, acc =>
    let tw := wordSet (lowerL a.title)
    match dupScan tw seen with
    | Except.error e => Except.error e
    | Except.ok true => dedupGo rest seen acc
    | Except.ok false => dedupGo rest (seen ++ [lowerL a.title]) (a :: acc)

/-- `_deduplicate_articles`; `Except.error ()` models the uncaught
`ZeroDivisionError`. -/
def deduplicate_articles (articles : List Article) : Except Unit (List Article) :=
  dedupGo articles [] []

/-- Stable insertion (after equal scores) used to model Python's stable
`sorted(key=relevance_score, reverse=True)`. -/
def insertDesc (a : Article) : List Article → List Article
  | [] => [a]
  | b :: t =>
    if a.relevance_score ≤ b.relevance_score then b :: insertDesc a t
    else a :: b :: t

/-- `sorted(articles, key=lambda x: x.get('relevance_score', 0), reverse=True)`:
the unique score-non-increasing permutation that keeps equal-score articles in
input order, which is what Python's stable sort produces. -/
def sortDesc (l : List Article) : List Article :=
  l.foldl (fun acc a => insertDesc a acc) []

/-- The aggregation step of `fetch_weekend_news`: sort the deduplicated
articles by score descending (stable) and truncate, `sorted(...)[:15]`. -/
def aggregate (l : List Article) : List Article := (sortDesc l).take 15

/-- `fetch_weekend_news` after the two sub-fetches: deduplicate, sort, truncate.
The surrounding `try/except` turns any exception (in particular the
deduplicator's `ZeroDivisionError`) into an empty result. -/
def fetch_weekend_news (apiArticles rssArticles : List Article) : List Article :=
  match deduplicate_articles (apiArticles ++ rssArticles) with
  | Except.ok unique => aggregate unique
  | Except.error _ => []

/-- A raw News-API article object: `article.get('title')` is `none` when the
key is missing.  `url`, `source.name` and `publishedAt` are only read after
the title/description check succeeds, so they are modelled as present. -/
structure NewsApiRaw where
  title : Option (List Char)
  description : Option (List Char)
  url : List Char
  source_name : List Char
  publishedAt : List Char
  deriving DecidableEq, Repr

/-- Python truthiness of `article.get(k)`: `None` and `""` are falsy. -/
def truthyOpt : Option (List Char) → Bool
  | none => false
  | some s => !s.isEmpty

/-- The normalization loop of `_fetch_from_newsapi` over the decoded
`articles` array of a 200 response (non-200 yields no articles). -/
def fetch_from_newsapi (raws : List NewsApiRaw) : List Article :=
  raws.filterMap fun r =>
    if truthyOpt r.title && truthyOpt r.description then
      some { title := r.title.getD []
             description := r.description.getD []
             url := r.url
             source := r.source_name
             published_at := r.publishedAt
             relevance_score :=
               calculate_relevance (r.title.getD []) (r.description.getD []) }
    else none

/-- One parsed RSS entry; `none` models a missing attribute (`hasattr` false /
`getattr` default).  An attribute present with value `""` is `some []`. -/
structure RssEntry where
  title : Option (List Char)
  link : Option (List Char)
  summary : Option (List Char)
  published : Option (List Char)
  deriving DecidableEq, Repr

/-- One parsed feed: `feed.feed.get('title', 'RSS Feed')` and `feed.entries`. -/
structure Feed where
  ftitle : Option (List Char)
  entries : List RssEntry
  deriving DecidableEq, Repr

/-- The normalization loop of `_fetch_from_rss`: per feed, at most 10 entries,
entries must have `title` and `link` attributes; the stored description is
`getattr(entry, 'summary', entry.title)[:200]` while the score is computed on
`getattr(entry, 'summary', '')`. -/
def fetch_from_rss (feeds : List Feed) : List Article :=
  feeds.flatMap fun f =>
    (f.entries.take 10).filterMap fun e =>
      match e.title, e.link with
      | some t, some lnk =>
        some { title := t
               description := (e.summary.getD t).take 200
               url := lnk
               source := f.ftitle.getD (lchars "RSS Feed")
               published_at := e.published.getD []
               relevance_score := calculate_relevance t (e.summary.getD []) }
      | _, _ => none

/-- The whole fetch-and-aggregate pipeline of `fetch_weekend_news` from raw
source records (News-API articles of a 200 response and parsed RSS feeds). -/
def fetch_pipeline (raws : List NewsApiRaw) (feeds : List Feed) : List Article :=
  fetch_weekend_news (fetch_from_newsapi raws) (fetch_from_rss feeds)

/-- The sentence loop of `split_outlook` (inner `for sentence in sentences`),
state `(parts, temp_part)`; a flush appends `temp_part.strip()` when non-empty. -/
def packGo (maxLength : Nat) : List (List Char) → List (List Char) × List Char → List (List Char) × List Char
  | [], st => st
  | s :: rest, (parts, temp) =>
    if (temp ++ s ++ ['.', ' ']).length ≤ maxLength then
      packGo maxLength rest (parts, temp ++ s ++ ['.', ' '])
    else
      packGo maxLength rest
        (if (trimL temp).isEmpty then parts else parts ++ [trimL temp],
         s ++ ['.', ' '])

/-- The paragraph loop of `split_outlook` (outer `for paragraph in paragraphs`),
state `(parts, current_part)`. -/
def paraGo (maxLength : Nat) : List (List Char) → List (List Char) × List Char → List (List Char) × List Char
  | [], st => st
  | p :: rest, (parts, current) =>
    if (current ++ p ++ ['\n', '\n']).length > maxLength then
      let parts1 := if (trimL current).isEmpty then parts else parts ++ [trimL current]
      let current1 := if (trimL current).isEmpty then current else []
      if p.length > maxLength then
        let st2 := packGo maxLength (splitOn2 '.' ' ' p) (parts1, [])
        let current2 := if (trimL st2.2).isEmpty then current1 else st2.2
        paraGo maxLength rest (st2.1, current2)
      else
        paraGo maxLength rest (parts1, p ++ ['\n', '\n'])
    else
      paraGo maxLength rest (parts, current ++ p ++ ['\n', '\n'])

/-- `split_outlook` from `send_weekly_discord_webhook` (default
`max_length = 1000` is passed explicitly by the single caller). -/
def split_outlook (text : List Char) (maxLength : Nat) : List (List Char) :=
  if text.length ≤ maxLength then [text]
  else
    let st := paraGo maxLength (splitOn2 '\n' '\n' text) ([], [])
    if (trimL st.2).isEmpty then st.1 else st.1 ++ [trimL st.2]

/-- One Discord embed field. -/
structure EmbedField where
  name : List Char
  value : List Char
  inline : Bool
  deriving DecidableEq, Repr

/-- One Discord embed. -/
structure Embed where
  title : List Char
  description : List Char
  color : Nat
  fields : List EmbedField
  footer : Option (List Char)
  timestamp : Option (List Char)
  deriving DecidableEq, Repr

/-- A Discord webhook payload. -/
structure DiscordPayload where
  content : List Char
  embeds : List Embed
  username : List Char
  avatar_url : List Char
  deriving DecidableEq, Repr

/-- The outlook fields: one per chunk, header only on the first chunk. -/
def outlookFields (outlook : List Char) : List EmbedField :=
  (split_outlook outlook 1000).enum.map fun pi =>
    { name := if pi.1 = 0 then lchars "📊 Weekly Market Outlook" else lchars "​"
      value := pi.2
      inline := false }

/-- `main_embed` from `send_weekly_discord_webhook`; `weekRange` and the two
time strings are the formatted values of `week_range`, `current_time` (they
depend only on the run date, not on the outlook or the articles). -/
def mainEmbed (outlook weekRange timeStr isoStr : List Char) : Embed :=
  { title := lchars "📅 Weekly Trading Outlook"
    description := lchars "**Week of " ++ weekRange ++ lchars "**\n*" ++ timeStr ++ lchars "*"
    color := 0x9932cc
    fields := outlookFields outlook
    footer := some (lchars "Weekly market analysis • Plan your trading week • Not financial advice")
    timestamp := some isoStr }

/-- `stories_embed`: top-8 bulleted links, or the grey placeholder. -/
def storiesEmbed (articles : List Article) : Embed :=
  if articles.isEmpty then
    { title := lchars "📰 Key Stories"
      description := lchars "Monitor major financial news sources for developing stories."
      color := 0x999999, fields := [], footer := none, timestamp := none }
  else
    { title := lchars "📰 Key Stories Shaping the Week"
      description :=
        joinSep ['\n'] ((articles.take 8).map fun a =>
          lchars "• [" ++ a.title.take 70 ++ lchars "...](" ++ a.url ++ lchars ")")
      color := 0x0066cc, fields := [], footer := none, timestamp := none }

/-- `calendar_embed`, static. -/
def calendarEmbed : Embed :=
  { title := lchars "📋 Week Ahead Checklist"
    description := lchars "**Monday:** Review weekend news, set weekly levels\n**Tuesday-Thursday:** Monitor earnings, economic data\n**Friday:** Weekly close, next week preparation\n\n**Market Hours:** 9:30 AM - 4:00 PM EST"
    color := 0xff6600, fields := [], footer := none, timestamp := none }

/-- The rich payload of `send_weekly_discord_webhook`. -/
def buildRichPayload (outlook : List Char) (articles : List Article) (weekRange timeStr isoStr : List Char) : DiscordPayload :=
  { content := lchars "📈 **Weekly Market Outlook is here!** Plan your trading week:"
    embeds := [mainEmbed outlook weekRange timeStr isoStr, storiesEmbed articles, calendarEmbed]
    username := lchars "Weekly Market Outlook"
    avatar_url := lchars "https://cdn-icons-png.flaticon.com/512/2784/2784403.png" }

/-- The simplified fallback payload sent after a 400 response:
`content = f"📅 **Weekly Market Outlook - {week_range}**\n\n{outlook[:1800]}"`. -/
def buildSimplePayload (outlook weekRange : List Char) : DiscordPayload :=
  { content := lchars "📅 **Weekly Market Outlook - " ++ weekRange ++ lchars "**\n\n" ++ outlook.take 1800
    embeds := []
    username := lchars "Weekly Market Outlook"
    avatar_url := [] }

/-- Result of one `requests.post`: an HTTP status, or a transport-level
`RequestException`. -/
inductive PostResult where
  | status (code : Nat)
  | netfail
  deriving DecidableEq, Repr

/-- Error propagated out of the webhook sender: an `HTTPError` carrying the
status code, or a transport error. -/
inductive SendErr where
  | httpErr (code : Nat)
  | netErr
  deriving DecidableEq, Repr

/-- `response.raise_for_status()`: raises `HTTPError` exactly for 4xx/5xx. -/
def raisesForStatus (code : Nat) : Bool := decide (400 ≤ code ∧ code < 600)

/-- The delivery control flow of `send_weekly_discord_webhook`: post the rich
payload; on `HTTPError` with code 400 post `simple` once (a failure of that
second post is raised from inside the handler and propagates); on any other
`HTTPError` or transport error re-raise.  `r1`, `r2` are the environment's
responses to the first and (if reached) second post.  Returns the posted
payloads in order together with the outcome. -/
def send_webhook (r1 r2 : PostResult) (rich simple : DiscordPayload) : List DiscordPayload × Except SendErr Unit :=
  match r1 with
  | PostResult.netfail => ([rich], Except.error SendErr.netErr)
  | PostResult.status c =>
    if raisesForStatus c then
      if c = 400 then
        match r2 with
        | PostResult.netfail => ([rich, simple], Except.error SendErr.netErr)
        | PostResult.status c2 =>
          if raisesForStatus c2 then ([rich, simple], Except.error (SendErr.httpErr c2))
          else ([rich, simple], Except.ok ())
      else ([rich], Except.error (SendErr.httpErr c))
    else ([rich], Except.ok ())

/-- `send_weekly_discord_webhook` given the environment responses and the
run-date strings.  The code's `json.dumps` / `payload_str.replace('\u0000',
'')` / `json.loads` round trip before the first post is the identity on the
payload: `json.dumps` escapes a NUL character as the six-character text
`\u0000` (a backslash escape, never a raw NUL) even with
`ensure_ascii=False`, so replacing the raw NUL character in the serialized
string matches nothing, and `json.loads` restores the original payload,
NULs included.  The rich payload is therefore posted unchanged. -/
def send_weekly_discord_webhook (r1 r2 : PostResult) (outlook : List Char) (articles : List Article) (weekRange timeStr isoStr : List Char) : List DiscordPayload × Except SendErr Unit :=
  send_webhook r1 r2
    (buildRichPayload outlook articles weekRange timeStr isoStr)
    (buildSimplePayload outlook weekRange)

/-- `generate_weekly_outlook`: empty input short-circuits to the no-news
fallback; otherwise the service is called, `svc = some s` being a successful
completion (`.strip()` applied) and `svc = none` any service failure, replaced
by the second fallback. -/
def generate_weekly_outlook (articles : List Article) (svc : Option (List Char)) : List Char :=
  if articles.isEmpty then
    lchars "Limited news available for this week\x27s outlook. Focus on major economic indicators and earnings releases."
  else
    match svc with
    | some s => trimL s
    | none => lchars "Unable to generate weekly outlook at this time. Focus on major economic indicators, earnings releases, and Fed communications for the week ahead."

/-- The process environment variables read by the bot. -/
structure Config where
  openai_key : Option (List Char)
  webhook_url : Option (List Char)
  news_key : Option (List Char)
  deriving DecidableEq, Repr

/-- Network events of one run, in order: the OpenAI connectivity probe, the
news fetch stage, the outlook-generation service call, the rich webhook post,
the simplified retry post, and the best-effort error-notification post. -/
inductive Ev where
  | probe
  | fetchNews
  | genCall
  | postRich
  | postSimple
  | postError
  deriving DecidableEq, Repr

/-- Top-level error of a run: a `ValueError` from the missing-configuration
checks in `WeeklyOutlookBot.__init__`, or a webhook delivery error. -/
inductive MainErr where
  | configErr
  | deliveryErr (e : SendErr)
  deriving DecidableEq, Repr

/-- The `except Exception` handler of `main`: re-read `DISCORD_WEBHOOK_URL`
and, when truthy, post a short error notification (its own failure is
swallowed); then re-raise, so `asyncio.run` exits non-zero. -/
def handleFailure (cfg : Config) (evs : List Ev) (e : MainErr) : List Ev × Except MainErr Unit :=
  (evs ++ (if truthyOpt cfg.webhook_url then [Ev.postError] else []), Except.error e)

/-- `main()` as a function of its environment: configuration, probe outcome,
the fetched article list (the fetch stage itself never raises), the generation
service outcome and the two webhook responses.  Returns the network events in
order and the process outcome; `Except.ok ()` is a normal return of `main`,
hence process exit status 0. -/
def runMain (cfg : Config) (probeOk : Bool) (articles : List Article) (svc : Option (List Char)) (r1 r2 : PostResult) (weekRange timeStr isoStr : List Char) : List Ev × Except MainErr Unit :=
  if !truthyOpt cfg.openai_key then handleFailure cfg [] MainErr.configErr
  else if !truthyOpt cfg.webhook_url then handleFailure cfg [] MainErr.configErr
  else if !probeOk then
    ([Ev.probe], Except.ok ())
  else
    let outlook := generate_weekly_outlook articles svc
    let evs := [Ev.probe, Ev.fetchNews] ++ (if articles.isEmpty then [] else [Ev.genCall])
    let sent := send_weekly_discord_webhook r1 r2 outlook articles weekRange timeStr isoStr
    let evs2 := evs ++ [Ev.postRich] ++ (if sent.1.length = 2 then [Ev.postSimple] else [])
    match sent.2 with
    | Except.ok _ => (evs2, Except.ok ())
    | Except.error e => handleFailure cfg evs2 (MainErr.deliveryErr e)

/-- The duplicate test as claim C1 words it (threshold `overlap >= 0.7`,
i.e. `10 * inter >= 7 * max`, a zero-word overlap counting as 0): written
from the specification for comparison with `dupScan`. -/
def dupGE (tw : List (List Char)) (seen : List (List Char)) : Bool :=
  seen.any fun st =>
    let sw := wordSet st
    let m := max tw.length sw.length
    decide (m ≠ 0 ∧ 10 * interCount tw sw ≥ 7 * m)

/-- The duplicate test with the strict threshold `overlap > 0.7` actually
implemented, total (a zero-word overlap counts as 0). -/
def dupGT (tw : List (List Char)) (seen : List (List Char)) : Bool :=
  seen.any fun st =>
    let sw := wordSet st
    let m := max tw.length sw.length
    decide (10 * interCount tw sw > 7 * m)

/-- Greedy accept/reject scan with duplicate test `dup`, written from the
specification: accept an article when its title-word set does not collide
with any already-accepted title. -/
def dedupSpecGo (dup : List (List Char) → List (List Char) → Bool) : List Article → List (List Char) → List Article
  | [], _ => []
  | a :: rest, seen =>
    let tw := wordSet (lowerL a.title)
    if dup tw seen then dedupSpecGo dup rest seen
    else a :: dedupSpecGo dup rest (seen ++ [lowerL a.title])

/-- The deduplicator exactly as claim C1 states it (drop when overlap ≥ 0.7). -/
def dedupSpecGE (articles : List Article) : List Article :=
  dedupSpecGo dupGE articles []

/-- The greedy scan with the strict threshold (drop when overlap > 0.7). -/
def dedupSpecGT (articles : List Article) : List Article :=
  dedupSpecGo dupGT articles []

/-- An article with the given title and irrelevant remaining fields, for
concrete deduplicator inputs. -/
def mkArticle (t : String) : Article :=
  { title := t.toList, description := ['d'], url := ['u'], source := ['s'],
    published_at := [], relevance_score := 0 }

/-- An article with the given relevance score, for concrete aggregator
inputs. -/
def scoreArticle (tag : Nat) (sc : Int) : Article :=
  { title := Nat.toDigits 10 tag, description := ['d'], url := ['u'],
    source := ['s'], published_at := [], relevance_score := sc }

/-- A parsed RSS feed whose single entry has an empty `title` attribute. -/
def rssEmptyTitleFeed : Feed :=
  { ftitle := some (lchars "F")
    entries := [{ title := some [], link := some (lchars "http://u"),
                  summary := some (lchars "x"), published := none }] }

/-- A News-API record with non-empty title and description. -/
def goodRaw : NewsApiRaw :=
  { title := some (lchars "Fed raises rates"),
    description := some (lchars "A move"), url := lchars "http://n",
    source_name := lchars "S", publishedAt := lchars "2026-10-12" }

/-- A parsed RSS feed whose single entry has a non-empty title and no
summary attribute. -/
def goodFeed : Feed :=
  { ftitle := none
    entries := [{ title := some (lchars "Apple reports"),
                  link := some (lchars "http://a"), summary := none,
                  published := none }] }

/-- Well-behaved sentence for the chunker: non-empty, starts with a
non-whitespace character, and fits inside one section together with its
`". "` separator. -/
def GoodSent (maxLength : Nat) (s : List Char) : Prop :=
  s ≠ [] ∧ (s.headD ' ').isWhitespace = false ∧ s.length + 2 ≤ maxLength

/-- Shape of the chunker's accumulated groups: a non-empty body starting
with a non-whitespace character, followed by the reattached `". "`,
within the section limit. -/
def GroupOK (maxLength : Nat) (g : List Char) : Prop :=
  ∃ h, g = h ++ ['.', ' '] ∧ h ≠ [] ∧ (h.headD ' ').isWhitespace = false ∧
    g.length ≤ maxLength

/-- Five plain sentences totalling 2500 characters once joined with `". "`. -/
def outlookSentences : List (List Char) :=
  [List.replicate 500 'a', List.replicate 500 'a', List.replicate 500 'a',
   List.replicate 500 'a', List.replicate 492 'a']

/-- A 2500-character outlook with no paragraph break whose sentences all fit
inside the section limit. -/
def outlookText2500 : List Char := joinSep ['.', ' '] outlookSentences

/-- The full fixed vocabulary the scorer tests membership of: the three
keyword lists plus both substring forms of every watchlist symbol. -/
def scoringPatterns : List (List Char) :=
  high_keywords ++ medium_keywords ++ weekly_keywords ++
    watchlist.map lowerL ++ watchlist.map (fun sym => '$' :: lowerL sym)

theorem scorePass_congr (w : Int) (p q : List Char → Bool) (ks : List (List Char))
    (h : ∀ k ∈ ks, p k = q k) : ∀ s, scorePass w p ks s = scorePass w q ks s := by
  induction ks with
  | nil => intro s; rfl
  | cons k ks ih =>
    intro s
    have hk := h k (List.mem_cons_self k ks)
    have h2 : ∀ x ∈ ks, p x = q x := fun x hx => h x (List.mem_cons_of_mem k hx)
    simp only [scorePass, List.foldl_cons]
    rw [hk]
    exact ih h2 _

/-- C10: the scorer's keyword lists are not disjoint: `guidance` is both
high- and medium-priority, `outlook` and `forecast` are both high-priority
and weekly keywords, so a text containing only `outlook` scores 4 + 3 = 7 and
a text containing only `guidance` scores 4 + 2 = 6. -/
theorem keyword_lists_overlap_double_score :
    lchars "guidance" ∈ high_keywords ∧ lchars "guidance" ∈ medium_keywords ∧
    lchars "outlook" ∈ high_keywords ∧ lchars "outlook" ∈ weekly_keywords ∧
    lchars "forecast" ∈ high_keywords ∧ lchars "forecast" ∈ weekly_keywords ∧
    calculate_relevance (lchars "outlook") [] = 7 ∧
    calculate_relevance (lchars "guidance") [] = 6 := by
  refine ⟨?_, ?_, ?_, ?_, ?_, ?_, ?_, ?_⟩ <;> decide

/-- C7: the relevance scorer is a membership test over the fixed vocabulary
`scoringPatterns`: the score of `"Fed holds rates, $SPY reacts"` is
4 + 3 = 7, and two texts in which exactly the same patterns occur receive
the same score, so repeating a keyword adds nothing. -/
theorem relevance_is_membership :
    calculate_relevance (lchars "Fed holds rates, $SPY reacts") [] = 7 ∧
    ∀ t1 d1 t2 d2 : List Char,
      (∀ k ∈ scoringPatterns,
          hasSub k (lowerL (t1 ++ [' '] ++ d1)) = hasSub k (lowerL (t2 ++ [' '] ++ d2))) →
      calculate_relevance t1 d1 = calculate_relevance t2 d2 := by
  constructor
  · decide
  · intro t1 d1 t2 d2 h
    have hHigh : ∀ k ∈ high_keywords,
        hasSub k (lowerL (t1 ++ [' '] ++ d1)) = hasSub k (lowerL (t2 ++ [' '] ++ d2)) :=
      fun k hk => h k (by simp [scoringPatterns, hk])
    have hMed : ∀ k ∈ medium_keywords,
        hasSub k (lowerL (t1 ++ [' '] ++ d1)) = hasSub k (lowerL (t2 ++ [' '] ++ d2)) :=
      fun k hk => h k (by simp [scoringPatterns, hk])
    have hWeek : ∀ k ∈ weekly_keywords,
        hasSub k (lowerL (t1 ++ [' '] ++ d1)) = hasSub k (lowerL (t2 ++ [' '] ++ d2)) :=
      fun k hk => h k (by simp [scoringPatterns, hk])
    have hWatch : ∀ sym ∈ watchlist,
        (hasSub (lowerL sym) (lowerL (t1 ++ [' '] ++ d1)) ||
          hasSub ('$' :: lowerL sym) (lowerL (t1 ++ [' '] ++ d1)))
        = (hasSub (lowerL sym) (lowerL (t2 ++ [' '] ++ d2)) ||
          hasSub ('$' :: lowerL sym) (lowerL (t2 ++ [' '] ++ d2))) := by
      intro sym hs
      have m1 : lowerL sym ∈ scoringPatterns :=
        List.mem_append_left _ (List.mem_append_right _ (List.mem_map_of_mem lowerL hs))
      have m2 : '$' :: lowerL sym ∈ scoringPatterns :=
        List.mem_append_right _ (List.mem_map_of_mem (fun s => '$' :: lowerL s) hs)
      rw [h (lowerL sym) m1, h ('$' :: lowerL sym) m2]
    simp only [calculate_relevance]
    rw [scorePass_congr 4 _ _ high_keywords hHigh,
      scorePass_congr 2 _ _ medium_keywords hMed,
      scorePass_congr 3 _ _ weekly_keywords hWeek,
      scorePass_congr 3 _ _ watchlist hWatch]

/-- Witness for C7 at concrete inputs: the repeated-keyword text
`"fed fed fed"` occupies exactly the same patterns as `"fed"`, hence the same
score. -/
theorem relevance_is_membership_witness :
    (∀ k ∈ scoringPatterns,
        hasSub k (lowerL (lchars "fed" ++ [' '] ++ [])) =
          hasSub k (lowerL (lchars "fed fed fed" ++ [' '] ++ []))) ∧
    calculate_relevance (lchars "fed") [] = calculate_relevance (lchars "fed fed fed") [] :=
  ⟨by decide, relevance_is_membership.2 _ _ _ _ (by decide)⟩

/-- C8 (failing input): on two articles whose titles both contain zero words,
the deduplicator hits `max(0, 0) = 0` as divisor and raises
`ZeroDivisionError` instead of treating the overlap as 0. -/
theorem dedup_raises_on_two_empty_titles :
    deduplicate_articles [mkArticle "", mkArticle ""] = Except.error () := rfl

/-- C1 (counterexample): at word-set overlap exactly 0.7 (7 shared words, both
sets of size 10) the code keeps the second article (strict `> 0.7`), while the
claimed `>= 0.7` scan drops it. -/
theorem dedup_threshold_boundary_counterexample :
    deduplicate_articles [mkArticle "a b c d e f g h i j", mkArticle "a b c d e f g k l m"]
      = Except.ok [mkArticle "a b c d e f g h i j", mkArticle "a b c d e f g k l m"] ∧
    dedupSpecGE [mkArticle "a b c d e f g h i j", mkArticle "a b c d e f g k l m"]
      = [mkArticle "a b c d e f g h i j"] := by
  exact ⟨rfl, rfl⟩

theorem dupScan_eq_dupGT (tw : List (List Char)) (htw : tw ≠ []) :
    ∀ seen, dupScan tw seen = Except.ok (dupGT tw seen) := by
  intro seen
  induction seen with
  | nil => simp [dupScan, dupGT]
  | cons st rest ih =>
    have hm : ¬ max tw.length (wordSet st).length = 0 := by
      have h1 : tw.length ≠ 0 := fun hl => htw (List.length_eq_zero.mp hl)
      have := Nat.le_max_left tw.length (wordSet st).length
      omega
    simp only [dupScan, dupGT, List.any_cons]
    rw [if_neg hm]
    by_cases hgt : 10 * interCount tw (wordSet st) > 7 * max tw.length (wordSet st).length
    · simp [hgt]
    · simp only [dupGT] at ih
      simp [hgt, ih]

theorem dedupGo_eq_spec (arts : List Article) :
    ∀ (seen : List (List Char)) (acc : List Article),
      (∀ a ∈ arts, wordsOf (lowerL a.title) ≠ []) →
      dedupGo arts seen acc = Except.ok (acc.reverse ++ dedupSpecGo dupGT arts seen) := by
  induction arts with
  | nil => intro seen acc _; simp [dedupGo, dedupSpecGo]
  | cons a rest ih =>
    intro seen acc h
    have hta : wordsOf (lowerL a.title) ≠ [] := h a (List.mem_cons_self a rest)
    have htw : wordSet (lowerL a.title) ≠ [] := by
      simpa [wordSet, List.dedup_eq_nil] using hta
    have hrest : ∀ x ∈ rest, wordsOf (lowerL x.title) ≠ [] :=
      fun x hx => h x (List.mem_cons_of_mem a hx)
    simp only [dedupGo, dedupSpecGo]
    rw [dupScan_eq_dupGT _ htw seen]
    by_cases hd : dupGT (wordSet (lowerL a.title)) seen
    · simp [hd, ih _ _ hrest]
    · simp [hd, ih _ _ hrest, List.reverse_cons, List.append_assoc]

/-- C1 (amended): the deduplicator performs the claimed greedy first-seen
scan but with strict threshold `> 0.7`; on inputs whose titles all contain at
least one word it returns exactly that subsequence, and on the claim's
three-title example it drops the second article and keeps the first and
third. -/
theorem dedup_strict_threshold :
    (∀ arts : List Article, (∀ a ∈ arts, wordsOf (lowerL a.title) ≠ []) →
      deduplicate_articles arts = Except.ok (dedupSpecGT arts)) ∧
    deduplicate_articles [mkArticle "Fed Raises Rates Again",
        mkArticle "Fed Raises Interest Rates Again", mkArticle "Apple Reports Earnings"]
      = Except.ok [mkArticle "Fed Raises Rates Again", mkArticle "Apple Reports Earnings"] := by
  constructor
  · intro arts h
    simpa [deduplicate_articles, dedupSpecGT] using dedupGo_eq_spec arts [] [] h
  · rfl

/-- Witness for C1 (amended) on the claim's own example input. -/
theorem dedup_strict_threshold_witness :
    (∀ a ∈ [mkArticle "Fed Raises Rates Again",
        mkArticle "Fed Raises Interest Rates Again", mkArticle "Apple Reports Earnings"],
      wordsOf (lowerL a.title) ≠ []) ∧
    deduplicate_articles [mkArticle "Fed Raises Rates Again",
        mkArticle "Fed Raises Interest Rates Again", mkArticle "Apple Reports Earnings"]
      = Except.ok (dedupSpecGT [mkArticle "Fed Raises Rates Again",
        mkArticle "Fed Raises Interest Rates Again", mkArticle "Apple Reports Earnings"]) :=
  ⟨by decide, dedup_strict_threshold.1 _ (by decide)⟩

/-- C4 (failing input): with a valid configuration but a failed OpenAI
connectivity probe, `main` returns normally after the probe — no exception is
re-raised and the process exit status is 0 (success), and no fetch happens. -/
theorem probe_failure_returns_success :
    runMain ⟨some (lchars "k"), some (lchars "https://w"), none⟩
      false [] none (PostResult.status 204) (PostResult.status 204) [] [] []
      = ([Ev.probe], Except.ok ()) := rfl

theorem mem_insertDesc {x a : Article} : ∀ {l : List Article},
    x ∈ insertDesc a l ↔ x = a ∨ x ∈ l := by
  intro l
  induction l with
  | nil => simp [insertDesc]
  | cons b t ih =>
    simp only [insertDesc]
    by_cases hc : a.relevance_score ≤ b.relevance_score
    · rw [if_pos hc]
      simp only [List.mem_cons, ih]
      tauto
    · rw [if_neg hc]
      simp only [List.mem_cons]

theorem mem_sortGo (l : List Article) : ∀ (acc : List Article) (x : Article),
    x ∈ l.foldl (fun acc a => insertDesc a acc) acc → x ∈ acc ∨ x ∈ l := by
  induction l with
  | nil =>
    intro acc x h
    simp only [List.foldl_nil] at h
    exact Or.inl h
  | cons a t ih =>
    intro acc x h
    simp only [List.foldl_cons] at h
    rcases ih _ x h with h2 | h2
    · rcases mem_insertDesc.mp h2 with rfl | h3
      · exact Or.inr (List.mem_cons_self _ _)
      · exact Or.inl h3
    · exact Or.inr (List.mem_cons_of_mem _ h2)

theorem mem_sortDesc {x : Article} {l : List Article} (h : x ∈ sortDesc l) : x ∈ l := by
  rcases mem_sortGo l [] x h with h2 | h2
  · simp at h2
  · exact h2

theorem pairwise_insertDesc {a : Article} : ∀ {l : List Article},
    l.Pairwise (fun x y => y.relevance_score ≤ x.relevance_score) →
    (insertDesc a l).Pairwise (fun x y => y.relevance_score ≤ x.relevance_score) := by
  intro l
  induction l with
  | nil => intro _; simp [insertDesc]
  | cons b t ih =>
    intro hp
    rw [List.pairwise_cons] at hp
    obtain ⟨hb, ht⟩ := hp
    simp only [insertDesc]
    by_cases hc : a.relevance_score ≤ b.relevance_score
    · rw [if_pos hc, List.pairwise_cons]
      refine ⟨?_, ih ht⟩
      intro x hx
      rcases mem_insertDesc.mp hx with rfl | h3
      · exact hc
      · exact hb x h3
    · rw [if_neg hc, List.pairwise_cons]
      push_neg at hc
      refine ⟨?_, List.pairwise_cons.mpr ⟨hb, ht⟩⟩
      intro x hx
      rcases List.mem_cons.mp hx with rfl | h3
      · exact le_of_lt hc
      · exact le_trans (hb x h3) (le_of_lt hc)

theorem pairwise_sortDesc (l : List Article) :
    (sortDesc l).Pairwise (fun x y => y.relevance_score ≤ x.relevance_score) := by
  have key : ∀ (l acc : List Article),
      acc.Pairwise (fun x y => y.relevance_score ≤ x.relevance_score) →
      (l.foldl (fun acc a => insertDesc a acc) acc).Pairwise
        (fun x y => y.relevance_score ≤ x.relevance_score) := by
    intro l
    induction l with
    | nil => intro acc h; simpa using h
    | cons a t ih =>
      intro acc h
      simp only [List.foldl_cons]
      exact ih _ (pairwise_insertDesc h)
  simpa [sortDesc] using key l [] (by simp)

theorem filter_insertDesc (v : Int) (a : Article) : ∀ {l : List Article},
    l.Pairwise (fun x y => y.relevance_score ≤ x.relevance_score) →
    (insertDesc a l).filter (fun x => x.relevance_score == v)
      = (l ++ [a]).filter (fun x => x.relevance_score == v) := by
  intro l
  induction l with
  | nil => intro _; rfl
  | cons b t ih =>
    intro hp
    rw [List.pairwise_cons] at hp
    obtain ⟨hb, ht⟩ := hp
    simp only [insertDesc]
    by_cases hc : a.relevance_score ≤ b.relevance_score
    · rw [if_pos hc]
      simp only [List.cons_append, List.filter_cons]
      rw [ih ht]
    · rw [if_neg hc]
      push_neg at hc
      by_cases pa : (a.relevance_score == v) = true
      · have hv : a.relevance_score = v := by simpa using pa
        have hall : ∀ x ∈ b :: t, ¬ (x.relevance_score == v) = true := by
          intro x hx
          have hxle : x.relevance_score ≤ b.relevance_score := by
            rcases List.mem_cons.mp hx with rfl | h3
            · exact le_refl _
            · exact hb x h3
          have hne : x.relevance_score ≠ v := by omega
          simp [hne]
        have h0 : (b :: t).filter (fun x => x.relevance_score == v) = [] :=
          List.filter_eq_nil_iff.mpr hall
        have hstep : (a :: b :: t).filter (fun x => x.relevance_score == v)
            = a :: (b :: t).filter (fun x => x.relevance_score == v) := by
          simp [List.filter_cons, pa]
        rw [List.filter_append, hstep, h0]
        simp [pa]
      · rw [List.filter_append]
        simp [List.filter_cons, pa]

theorem filter_sortDesc (v : Int) (l : List Article) :
    (sortDesc l).filter (fun x => x.relevance_score == v)
      = l.filter (fun x => x.relevance_score == v) := by
  have key : ∀ (l acc : List Article),
      acc.Pairwise (fun x y => y.relevance_score ≤ x.relevance_score) →
      (l.foldl (fun acc a => insertDesc a acc) acc).filter (fun x => x.relevance_score == v)
        = acc.filter (fun x => x.relevance_score == v)
          ++ l.filter (fun x => x.relevance_score == v) := by
    intro l
    induction l with
    | nil => intro acc h; simp
    | cons a t ih =>
      intro acc h
      simp only [List.foldl_cons]
      rw [ih _ (pairwise_insertDesc h), filter_insertDesc v a h, List.filter_append,
        List.filter_cons]
      by_cases pa : (a.relevance_score == v) = true
      · simp [pa]
      · simp [pa]
  simpa [sortDesc] using key l [] (by simp)

theorem length_insertDesc (a : Article) : ∀ l : List Article,
    (insertDesc a l).length = l.length + 1 := by
  intro l
  induction l with
  | nil => rfl
  | cons b t ih =>
    simp only [insertDesc]
    split
    · simp [ih]
    · simp

theorem length_sortDesc (l : List Article) : (sortDesc l).length = l.length := by
  have key : ∀ (l acc : List Article),
      (l.foldl (fun acc a => insertDesc a acc) acc).length = acc.length + l.length := by
    intro l
    induction l with
    | nil => intro acc; simp
    | cons a t ih =>
      intro acc
      simp only [List.foldl_cons]
      rw [ih, length_insertDesc]
      simp only [List.length_cons]
      omega
  simpa [sortDesc] using key l []

/-- C6: on any deduplicated list of more than 15 articles the aggregation step
returns exactly 15 articles, sorted non-increasingly by relevance score, and
stably: for each score the surviving articles are an initial run of the
equally-scored articles in input order. -/
theorem aggregate_top15 (l : List Article) (h : 15 < l.length) :
    (aggregate l).length = 15 ∧
    List.Chain' (fun a b => b.relevance_score ≤ a.relevance_score) (aggregate l) ∧
    ∀ v : Int, ∃ rest, l.filter (fun a => a.relevance_score == v)
      = (aggregate l).filter (fun a => a.relevance_score == v) ++ rest := by
  refine ⟨?_, ?_, ?_⟩
  · simp only [aggregate, List.length_take, length_sortDesc]
    omega
  · exact List.Pairwise.chain'
      (List.Pairwise.sublist (List.take_sublist _ _) (pairwise_sortDesc l))
  · intro v
    refine ⟨((sortDesc l).drop 15).filter (fun a => a.relevance_score == v), ?_⟩
    rw [← filter_sortDesc v l]
    simp only [aggregate]
    rw [← List.filter_append, List.take_append_drop]

/-- Witness for C6 on a concrete 16-article input. -/
theorem aggregate_top15_witness :
    15 < ((List.range 16).map (fun n => scoreArticle n (Int.ofNat (n % 3)))).length ∧
    ((aggregate ((List.range 16).map (fun n => scoreArticle n (Int.ofNat (n % 3))))).length = 15 ∧
    List.Chain' (fun a b => b.relevance_score ≤ a.relevance_score)
      (aggregate ((List.range 16).map (fun n => scoreArticle n (Int.ofNat (n % 3))))) ∧
    ∀ v : Int, ∃ rest,
      ((List.range 16).map (fun n => scoreArticle n (Int.ofNat (n % 3)))).filter
          (fun a => a.relevance_score == v)
        = (aggregate ((List.range 16).map (fun n => scoreArticle n (Int.ofNat (n % 3))))).filter
            (fun a => a.relevance_score == v) ++ rest) :=
  ⟨by decide, aggregate_top15 _ (by decide)⟩

theorem le_scorePass (w : Int) (hw : 0 ≤ w) (p : List Char → Bool) :
    ∀ (ks : List (List Char)) (s : Int), s ≤ scorePass w p ks s := by
  intro ks
  induction ks with
  | nil => intro s; simp [scorePass]
  | cons k t ih =>
    intro s
    simp only [scorePass, List.foldl_cons]
    refine le_trans ?_ (ih _)
    split
    · omega
    · exact le_refl s

theorem calc_nonneg (t d : List Char) : 0 ≤ calculate_relevance t d := by
  simp only [calculate_relevance]
  refine le_trans
    (le_scorePass 4 (by omega) (fun k => hasSub k (lowerL (t ++ [' '] ++ d))) high_keywords 0) ?_
  refine le_trans
    (le_scorePass 2 (by omega) (fun k => hasSub k (lowerL (t ++ [' '] ++ d))) medium_keywords _) ?_
  refine le_trans
    (le_scorePass 3 (by omega) (fun k => hasSub k (lowerL (t ++ [' '] ++ d))) weekly_keywords _) ?_
  exact le_scorePass 3 (by omega)
    (fun sym => hasSub (lowerL sym) (lowerL (t ++ [' '] ++ d)) ||
      hasSub ('$' :: lowerL sym) (lowerL (t ++ [' '] ++ d))) watchlist _

theorem dedup_subset : ∀ (arts : List Article) (seen : List (List Char))
    (acc res : List Article), dedupGo arts seen acc = Except.ok res →
    ∀ x ∈ res, x ∈ acc.reverse ++ arts := by
  intro arts
  induction arts with
  | nil =>
    intro seen acc res h x hx
    simp only [dedupGo, Except.ok.injEq] at h
    subst h
    simpa using hx
  | cons a rest ih =>
    intro seen acc res h x hx
    simp only [dedupGo] at h
    cases hscan : dupScan (wordSet (lowerL a.title)) seen with
    | error e =>
      rw [hscan] at h
      simp at h
    | ok b =>
      rw [hscan] at h
      cases b with
      | true =>
        simp only at h
        have h2 := ih seen acc res h x hx
        rcases List.mem_append.mp h2 with h3 | h3
        · exact List.mem_append_left _ h3
        · exact List.mem_append_right _ (List.mem_cons_of_mem a h3)
      | false =>
        simp only at h
        have h2 := ih _ _ res h x hx
        rcases List.mem_append.mp h2 with h3 | h3
        · rw [List.reverse_cons] at h3
          rcases List.mem_append.mp h3 with h4 | h4
          · exact List.mem_append_left _ h4
          · simp only [List.mem_singleton] at h4
            subst h4
            exact List.mem_append_right _ (List.mem_cons_self _ _)
        · exact List.mem_append_right _ (List.mem_cons_of_mem a h3)

theorem mem_fetch_weekend_news {x : Article} {api rss : List Article}
    (h : x ∈ fetch_weekend_news api rss) : x ∈ api ++ rss := by
  unfold fetch_weekend_news at h
  cases hd : deduplicate_articles (api ++ rss) with
  | error e => rw [hd] at h; simp at h
  | ok u =>
    rw [hd] at h
    have h2 : x ∈ u := mem_sortDesc (List.take_subset _ _ h)
    simpa using dedup_subset _ _ _ _ hd x h2

theorem truthy_getD {o : Option (List Char)} (h : truthyOpt o = true) : o.getD [] ≠ [] := by
  cases o with
  | none => simp [truthyOpt] at h
  | some s =>
    intro he
    rw [Option.getD_some] at he
    subst he
    simp [truthyOpt] at h

theorem mem_fetch_from_newsapi {a : Article} {raws : List NewsApiRaw}
    (h : a ∈ fetch_from_newsapi raws) :
    a.title ≠ [] ∧ a.description ≠ [] ∧ 0 ≤ a.relevance_score := by
  unfold fetch_from_newsapi at h
  obtain ⟨r, _, hfr⟩ := List.mem_filterMap.mp h
  by_cases hc : (truthyOpt r.title && truthyOpt r.description) = true
  · rw [if_pos hc] at hfr
    obtain ⟨ht, hd⟩ : truthyOpt r.title = true ∧ truthyOpt r.description = true := by
      simpa using hc
    injection hfr with hfr2
    subst hfr2
    exact ⟨truthy_getD ht, truthy_getD hd, calc_nonneg _ _⟩
  · rw [if_neg hc] at hfr
    simp at hfr

theorem take_ne_nil_of_ne_nil {l : List Char} (h : l ≠ []) : l.take 200 ≠ [] := by
  cases l with
  | nil => exact absurd rfl h
  | cons c t => simp [List.take]

theorem mem_fetch_from_rss {a : Article} {feeds : List Feed}
    (h : a ∈ fetch_from_rss feeds) :
    0 ≤ a.relevance_score ∧
    ∃ f ∈ feeds, ∃ e ∈ f.entries, ∃ t, e.title = some t ∧
      a.title = t ∧ a.description = (e.summary.getD t).take 200 := by
  unfold fetch_from_rss at h
  obtain ⟨f, hf, h2⟩ := List.mem_flatMap.mp h
  obtain ⟨e, he, hfe⟩ := List.mem_filterMap.mp h2
  have he2 : e ∈ f.entries := List.take_subset _ _ he
  cases htl : e.title with
  | none => rw [htl] at hfe; simp at hfe
  | some t =>
    cases hlk : e.link with
    | none => rw [htl, hlk] at hfe; simp at hfe
    | some lnk =>
      rw [htl, hlk] at hfe
      injection hfe with hfe2
      subst hfe2
      exact ⟨calc_nonneg _ _, f, hf, e, he2, t, htl, rfl, rfl⟩

/-- C2 (counterexample): an RSS entry whose `title` attribute is the empty
string passes the `hasattr` checks, so the final ranked list contains an
article with an empty title. -/
theorem pipeline_empty_title_counterexample :
    fetch_pipeline [] [rssEmptyTitleFeed]
      = [(⟨[], ['x'], lchars "http://u", lchars "F", [], 0⟩ : Article)] ∧
    (fetch_pipeline [] [rssEmptyTitleFeed]).any (fun a => a.title.isEmpty) = true :=
  ⟨rfl, rfl⟩

/-- C2 (amended): every article in the final ranked list has
`relevance_score >= 0`, and News-API-derived articles always have non-empty
title and description; but an RSS entry may carry an empty `title` or empty
`summary` string, so non-emptiness of all titles and descriptions holds only
when no RSS entry has an empty `title` or `summary` attribute value. -/
theorem pipeline_invariant (raws : List NewsApiRaw) (feeds : List Feed) :
    (∀ a ∈ fetch_pipeline raws feeds, 0 ≤ a.relevance_score) ∧
    ((∀ f ∈ feeds, ∀ e ∈ f.entries, e.title ≠ some [] ∧ e.summary ≠ some []) →
      ∀ a ∈ fetch_pipeline raws feeds, a.title ≠ [] ∧ a.description ≠ []) := by
  constructor
  · intro a ha
    rcases List.mem_append.mp (mem_fetch_weekend_news ha) with h | h
    · exact (mem_fetch_from_newsapi h).2.2
    · exact (mem_fetch_from_rss h).1
  · intro hfeeds a ha
    rcases List.mem_append.mp (mem_fetch_weekend_news ha) with h | h
    · exact ⟨(mem_fetch_from_newsapi h).1, (mem_fetch_from_newsapi h).2.1⟩
    · obtain ⟨_, f, hf, e, he, t, htl, hat, had⟩ := mem_fetch_from_rss h
      obtain ⟨hT, hS⟩ := hfeeds f hf e he
      have htne : t ≠ [] := by
        intro h0
        subst h0
        exact hT htl
      refine ⟨hat ▸ htne, ?_⟩
      rw [had]
      cases hsum : e.summary with
      | none => simpa [hsum] using take_ne_nil_of_ne_nil htne
      | some s =>
        have hsne : s ≠ [] := by
          intro h0
          subst h0
          exact hS hsum
        simpa [hsum] using take_ne_nil_of_ne_nil hsne

/-- Witness for C2 (amended) on a concrete News-API record and RSS feed. -/
theorem pipeline_invariant_witness :
    (∀ f ∈ [goodFeed], ∀ e ∈ f.entries, e.title ≠ some [] ∧ e.summary ≠ some []) ∧
    (∀ a ∈ fetch_pipeline [goodRaw] [goodFeed], 0 ≤ a.relevance_score) ∧
    (∀ a ∈ fetch_pipeline [goodRaw] [goodFeed], a.title ≠ [] ∧ a.description ≠ []) :=
  ⟨by decide, (pipeline_invariant [goodRaw] [goodFeed]).1,
    (pipeline_invariant [goodRaw] [goodFeed]).2 (by decide)⟩

/-- C9 (counterexample): with the webhook URL configured but the OpenAI
credential missing, the configuration error does trigger a webhook
notification attempt (the best-effort error post) before the error
propagates, contrary to "no webhook notification is attempted". -/
theorem config_error_notifies_webhook :
    runMain ⟨none, some (lchars "https://w"), none⟩ true [] none
      (PostResult.status 204) (PostResult.status 204) [] [] []
      = ([Ev.postError], Except.error MainErr.configErr) := rfl

/-- C9 (amended): when a required configuration value is missing the run
fails with the configuration error raised before any pipeline network
activity (no probe, no fetch, no generation call, no outlook post), and the
only network activity is a best-effort error notification to the webhook,
attempted exactly when the webhook URL is configured — so nothing at all is
attempted when the webhook URL itself is missing. -/
theorem config_error_aborts (cfg : Config) (probeOk : Bool) (articles : List Article)
    (svc : Option (List Char)) (r1 r2 : PostResult) (wr ts iso : List Char)
    (h : truthyOpt cfg.openai_key = false ∨ truthyOpt cfg.webhook_url = false) :
    runMain cfg probeOk articles svc r1 r2 wr ts iso
      = ((if truthyOpt cfg.webhook_url then [Ev.postError] else []),
         Except.error MainErr.configErr) := by
  rcases h with h | h
  · simp [runMain, handleFailure, h]
  · by_cases h2 : truthyOpt cfg.openai_key <;>
      simp [runMain, handleFailure, h, h2]

/-- Witness for C9 (amended): no configuration at all, so no notification. -/
theorem config_error_aborts_witness :
    (truthyOpt (none : Option (List Char)) = false ∨
      truthyOpt (none : Option (List Char)) = false) ∧
    runMain ⟨none, none, none⟩ true [] none
      (PostResult.status 204) (PostResult.status 204) [] [] []
      = ([], Except.error MainErr.configErr) :=
  ⟨Or.inl rfl,
    config_error_aborts ⟨none, none, none⟩ true [] none
      (PostResult.status 204) (PostResult.status 204) [] [] [] (Or.inl rfl)⟩

/-- C5: webhook delivery control flow.  The first post carries the rich
payload unchanged (the serialize / replace-NUL / deserialize round trip in
the code is the identity); an HTTP 400 response triggers exactly one retry
whose payload is the simplified one, whose `content` is a week-range prefix
followed by the first 1800 characters of the outlook; the retry's failure
(HTTP error or transport error) propagates; a non-400 HTTP error propagates
with no retry; a transport error propagates with no retry; a success posts
once. -/
theorem webhook_400_retry (r2 : PostResult) (outlook : List Char) (articles : List Article)
    (wr ts iso : List Char) (c c2 : Nat) :
    (send_weekly_discord_webhook (PostResult.status 400) r2 outlook articles wr ts iso).1
      = [buildRichPayload outlook articles wr ts iso,
         buildSimplePayload outlook wr] ∧
    (buildSimplePayload outlook wr).content
      = lchars "📅 **Weekly Market Outlook - " ++ wr ++ lchars "**\n\n" ++ outlook.take 1800 ∧
    (send_weekly_discord_webhook (PostResult.status 400) (PostResult.status c2)
        outlook articles wr ts iso).2
      = (if raisesForStatus c2 then Except.error (SendErr.httpErr c2) else Except.ok ()) ∧
    (send_weekly_discord_webhook (PostResult.status 400) PostResult.netfail
        outlook articles wr ts iso).2 = Except.error SendErr.netErr ∧
    (raisesForStatus c = true → c ≠ 400 →
      send_weekly_discord_webhook (PostResult.status c) r2 outlook articles wr ts iso
        = ([buildRichPayload outlook articles wr ts iso],
           Except.error (SendErr.httpErr c))) ∧
    (raisesForStatus c = false →
      send_weekly_discord_webhook (PostResult.status c) r2 outlook articles wr ts iso
        = ([buildRichPayload outlook articles wr ts iso], Except.ok ())) ∧
    send_weekly_discord_webhook PostResult.netfail r2 outlook articles wr ts iso
      = ([buildRichPayload outlook articles wr ts iso],
         Except.error SendErr.netErr) := by
  refine ⟨?_, rfl, ?_, rfl, ?_, ?_, rfl⟩
  · cases r2 with
    | status c2 =>
      simp only [send_weekly_discord_webhook, send_webhook]
      norm_num [raisesForStatus]
      split <;> rfl
    | netfail => rfl
  · simp only [send_weekly_discord_webhook, send_webhook]
    norm_num [raisesForStatus]
    split <;> rfl
  · intro h1 h2
    simp [send_weekly_discord_webhook, send_webhook, h1, h2]
  · intro h1
    simp [send_weekly_discord_webhook, send_webhook, h1]

/-- Witness for C5: a 500 response propagates without retry. -/
theorem webhook_400_retry_witness :
    raisesForStatus 500 = true ∧ (500 : Nat) ≠ 400 ∧
    send_weekly_discord_webhook (PostResult.status 500) (PostResult.status 204)
        (lchars "o") [] (lchars "W") [] []
      = ([buildRichPayload (lchars "o") [] (lchars "W") [] []],
         Except.error (SendErr.httpErr 500)) :=
  ⟨by decide, by decide,
    (webhook_400_retry (PostResult.status 204) (lchars "o") [] (lchars "W") [] []
      500 204).2.2.2.2.1 (by decide) (by decide)⟩

theorem splitOn2_ne_nil (a b : Char) : ∀ xs, splitOn2 a b xs ≠ []
  | [] => by simp [splitOn2]
  | [c] => by simp [splitOn2]
  | c :: d :: rest => by
    unfold splitOn2
    split
    · simp
    · split <;> simp

theorem joinSep_splitOn2 (a b : Char) : ∀ xs, joinSep [a, b] (splitOn2 a b xs) = xs
  | [] => by simp [splitOn2, joinSep]
  | [c] => by simp [splitOn2, joinSep]
  | c :: d :: rest => by
    unfold splitOn2
    by_cases hab : c = a ∧ d = b
    · rw [if_pos hab]
      obtain ⟨y, t, hyt⟩ : ∃ y t, splitOn2 a b rest = y :: t := by
        cases hs : splitOn2 a b rest with
        | nil => exact absurd hs (splitOn2_ne_nil a b rest)
        | cons y t => exact ⟨y, t, rfl⟩
      have ihr := joinSep_splitOn2 a b rest
      rw [hyt] at ihr ⊢
      simp only [joinSep, List.nil_append]
      rw [ihr, hab.1, hab.2]
      rfl
    · rw [if_neg hab]
      obtain ⟨y, t, hyt⟩ : ∃ y t, splitOn2 a b (d :: rest) = y :: t := by
        cases hs : splitOn2 a b (d :: rest) with
        | nil => exact absurd hs (splitOn2_ne_nil a b (d :: rest))
        | cons y t => exact ⟨y, t, rfl⟩
      have ihr := joinSep_splitOn2 a b (d :: rest)
      rw [hyt] at ihr ⊢
      cases t with
      | nil =>
        simp only [joinSep] at ihr ⊢
        rw [← ihr]
      | cons z t2 =>
        simp only [joinSep, List.cons_append] at ihr ⊢
        rw [← ihr]

theorem splitOn2_no_sep (a b : Char) : ∀ xs, hasSub [a, b] xs = false →
    splitOn2 a b xs = [xs]
  | [] => fun _ => rfl
  | [c] => fun _ => rfl
  | c :: d :: rest => by
    intro h
    simp only [hasSub, Bool.or_eq_false_iff] at h
    obtain ⟨hpre, hrest2⟩ := h
    have hdr : hasSub [a, b] (d :: rest) = false := by
      simp only [hasSub, Bool.or_eq_false_iff]
      exact hrest2
    have hne : ¬ (c = a ∧ d = b) := by
      rintro ⟨rfl, rfl⟩
      simp [List.isPrefixOf] at hpre
    unfold splitOn2
    rw [if_neg hne, splitOn2_no_sep a b (d :: rest) hdr]

theorem trimL_group {h : List Char} (hne : h ≠ [])
    (hw : (h.headD ' ').isWhitespace = false) :
    trimL (h ++ ['.', ' ']) = h ++ ['.'] := by
  cases h with
  | nil => exact absurd rfl hne
  | cons x h2 =>
    simp only [List.headD_cons] at hw
    unfold trimL
    rw [List.cons_append, List.dropWhile_cons_of_neg (by simp [hw])]
    have hrev : (x :: (h2 ++ ['.', ' '])).reverse = ' ' :: '.' :: (x :: h2).reverse := by
      simp
    rw [hrev, List.dropWhile_cons_of_pos (by decide),
      List.dropWhile_cons_of_neg (by decide)]
    simp

theorem packGo_spec (maxL : Nat) :
    ∀ (sents : List (List Char)) (parts : List (List Char)) (temp : List Char),
      (∀ s ∈ sents, GoodSent maxL s) →
      (temp = [] ∨ GroupOK maxL temp) →
      ∃ gs : List (List Char),
        (∀ g ∈ gs, GroupOK maxL g) ∧
        (packGo maxL sents (parts, temp)).1 = parts ++ gs.map trimL ∧
        gs.flatten ++ (packGo maxL sents (parts, temp)).2
          = temp ++ (sents.map (fun s => s ++ ['.', ' '])).flatten ∧
        ((packGo maxL sents (parts, temp)).2 = [] ↔ temp = [] ∧ sents = []) ∧
        ((packGo maxL sents (parts, temp)).2 ≠ [] →
          GroupOK maxL (packGo maxL sents (parts, temp)).2) := by
  intro sents
  induction sents with
  | nil =>
    intro parts temp _ htemp
    refine ⟨[], by simp, by simp [packGo], by simp [packGo], by simp [packGo], ?_⟩
    intro hne
    rcases htemp with rfl | hok
    · simp [packGo] at hne
    · simpa [packGo] using hok
  | cons s rest ih =>
    intro parts temp hs htemp
    have hgs : GoodSent maxL s := hs s (List.mem_cons_self _ _)
    have hrest : ∀ x ∈ rest, GoodSent maxL x := fun x hx => hs x (List.mem_cons_of_mem _ hx)
    obtain ⟨hsne, hshead, hslen⟩ := hgs
    by_cases hfit : (temp ++ s ++ ['.', ' ']).length ≤ maxL
    · have ht1 : GroupOK maxL (temp ++ s ++ ['.', ' ']) := by
        refine ⟨temp ++ s, by simp, ?_, ?_, hfit⟩
        · cases temp with
          | nil => simpa using hsne
          | cons c t => simp
        · rcases htemp with rfl | ⟨h0, heq, h0ne, h0head, _⟩
          · simpa using hshead
          · subst heq
            cases h0 with
            | nil => exact absurd rfl h0ne
            | cons c t => simpa using h0head
      obtain ⟨gs, hgcond, hparts, hflat, hiff, hgok⟩ :=
        ih parts (temp ++ s ++ ['.', ' ']) hrest (Or.inr ht1)
      have hstep : packGo maxL (s :: rest) (parts, temp)
          = packGo maxL rest (parts, temp ++ s ++ ['.', ' ']) := by
        simp only [packGo]
        rw [if_pos hfit]
      rw [hstep]
      refine ⟨gs, hgcond, hparts, ?_, ?_, hgok⟩
      · rw [hflat]
        simp [List.append_assoc]
      · rw [hiff]
        constructor
        · rintro ⟨h1, _⟩
          exact absurd h1 (by simp)
        · rintro ⟨_, h2⟩
          cases h2
    · have htne : temp ≠ [] := by
        intro h0
        subst h0
        exact hfit (by simpa using hslen)
      obtain ⟨h0, hteq, h0ne, h0head, htlen⟩ := htemp.resolve_left htne
      have htrim : trimL temp = h0 ++ ['.'] := by
        rw [hteq]
        exact trimL_group h0ne h0head
      have hie : (trimL temp).isEmpty = false := by
        rw [htrim]
        cases h0 <;> simp
      have ht1 : GroupOK maxL (s ++ ['.', ' ']) :=
        ⟨s, rfl, hsne, hshead, by simpa using hslen⟩
      obtain ⟨gs, hgcond, hparts, hflat, hiff, hgok⟩ :=
        ih (parts ++ [trimL temp]) (s ++ ['.', ' ']) hrest (Or.inr ht1)
      have hstep : packGo maxL (s :: rest) (parts, temp)
          = packGo maxL rest (parts ++ [trimL temp], s ++ ['.', ' ']) := by
        simp only [packGo]
        rw [if_neg hfit, hie]
        simp
      rw [hstep]
      refine ⟨temp :: gs, ?_, ?_, ?_, ?_, hgok⟩
      · intro g hg
        rcases List.mem_cons.mp hg with rfl | hgm
        · exact ⟨h0, hteq, h0ne, h0head, htlen⟩
        · exact hgcond g hgm
      · rw [hparts]
        simp
      · simp only [List.flatten_cons, List.map_cons]
        rw [List.append_assoc, hflat]
      · rw [hiff]
        constructor
        · rintro ⟨h1, _⟩
          exact absurd h1 (by simp)
        · rintro ⟨h1, _⟩
          exact absurd h1 htne

theorem joinSep_map_trimL (maxL : Nat) :
    ∀ (gs : List (List Char)) (last : List Char),
      (∀ g ∈ gs, GroupOK maxL g) → GroupOK maxL last →
      joinSep [' '] ((gs ++ [last]).map trimL) = gs.flatten ++ trimL last := by
  intro gs
  induction gs with
  | nil =>
    intro last _ _
    simp [joinSep]
  | cons g gs2 ih =>
    intro last hall hlast
    obtain ⟨hg0, hgeq, hg0ne, hg0head, _⟩ := hall g (List.mem_cons_self _ _)
    have htr : trimL g = hg0 ++ ['.'] := by
      rw [hgeq]
      exact trimL_group hg0ne hg0head
    have ihe := ih last (fun x hx => hall x (List.mem_cons_of_mem _ hx)) hlast
    cases hm : (gs2 ++ [last]).map trimL with
    | nil => simp at hm
    | cons y t =>
      rw [hm] at ihe
      simp only [List.cons_append, List.map_cons, hm, joinSep]
      rw [ihe, htr, hgeq]
      simp [List.flatten_cons, List.append_assoc]

theorem flatten_map_append_sep (sep : List Char) :
    ∀ l : List (List Char), l ≠ [] →
      (l.map (fun s => s ++ sep)).flatten = joinSep sep l ++ sep := by
  intro l
  induction l with
  | nil => intro h; exact absurd rfl h
  | cons x t ih =>
    intro _
    cases t with
    | nil => simp [joinSep]
    | cons y t2 =>
      have ihe := ih (by simp)
      rw [List.map_cons, List.flatten_cons, ihe]
      simp only [joinSep]
      simp [List.append_assoc]

/-- C3 (amended): for a 2500-character outlook with no paragraph break whose
sentences (the `". "`-separated pieces) are non-empty, start with
non-whitespace and each fit in a 1000-character section together with the
separator, the chunker returns only chunks of at most 1000 characters, and the
chunks joined with single spaces reproduce the original text followed by one
extra period appended by the sentence splitter; without the per-sentence size
condition a chunk may exceed the limit. -/
theorem split_outlook_sentence_chunks (text : List Char)
    (hlen : text.length = 2500)
    (hnp : hasSub ['\n', '\n'] text = false)
    (hsent : ∀ s ∈ splitOn2 '.' ' ' text, GoodSent 1000 s) :
    (∀ chunk ∈ split_outlook text 1000, chunk.length ≤ 1000) ∧
    joinSep [' '] (split_outlook text 1000) = text ++ ['.'] := by
  have hpar : splitOn2 '\n' '\n' text = [text] := splitOn2_no_sep _ _ _ hnp
  have hsents_ne : splitOn2 '.' ' ' text ≠ [] := splitOn2_ne_nil _ _ _
  obtain ⟨gs, hgcond, hparts, hflat, hiff, hgok⟩ :=
    packGo_spec 1000 (splitOn2 '.' ' ' text) [] [] hsent (Or.inl rfl)
  have htne : (packGo 1000 (splitOn2 '.' ' ' text) ([], [])).2 ≠ [] := by
    intro h0
    exact hsents_ne (hiff.mp h0).2
  obtain ⟨hL, hLeq, hLne, hLhead, hLlen⟩ := hgok htne
  have htr : trimL (packGo 1000 (splitOn2 '.' ' ' text) ([], [])).2 = hL ++ ['.'] := by
    rw [hLeq]
    exact trimL_group hLne hLhead
  have hietr : (trimL (packGo 1000 (splitOn2 '.' ' ' text) ([], [])).2).isEmpty = false := by
    rw [htr]
    cases hL <;> simp
  have hpara : paraGo 1000 [text] ([], [])
      = ((packGo 1000 (splitOn2 '.' ' ' text) ([], [])).1,
         (packGo 1000 (splitOn2 '.' ' ' text) ([], [])).2) := by
    simp only [paraGo]
    split
    · split
      · show ((packGo 1000 (splitOn2 '.' ' ' text) ([], [])).1,
            if (trimL (packGo 1000 (splitOn2 '.' ' ' text) ([], [])).2).isEmpty = true
              then ([] : List Char)
              else (packGo 1000 (splitOn2 '.' ' ' text) ([], [])).2)
          = ((packGo 1000 (splitOn2 '.' ' ' text) ([], [])).1,
             (packGo 1000 (splitOn2 '.' ' ' text) ([], [])).2)
        rw [hietr]
        rfl
      · rename_i h2
        exact absurd (by omega : 1000 < text.length) h2
    · rename_i h1
      exact absurd (by simp [hlen] : (([] : List Char) ++ text ++ ['\n', '\n']).length > 1000) h1
  have hchunks : split_outlook text 1000
      = (gs ++ [(packGo 1000 (splitOn2 '.' ' ' text) ([], [])).2]).map trimL := by
    unfold split_outlook
    rw [if_neg (by omega : ¬ text.length ≤ 1000), hpar, hpara]
    simp only [hietr, Bool.false_eq_true, if_false]
    rw [hparts]
    simp [List.map_append]
  constructor
  · intro chunk hchunk
    rw [hchunks] at hchunk
    obtain ⟨g, hgm, rfl⟩ := List.mem_map.mp hchunk
    have hgOK : GroupOK 1000 g := by
      rcases List.mem_append.mp hgm with hgm2 | hgm2
      · exact hgcond g hgm2
      · rw [List.mem_singleton.mp hgm2]
        exact ⟨hL, hLeq, hLne, hLhead, hLlen⟩
    obtain ⟨g0, hg0eq, hg0ne, hg0head, hg0len⟩ := hgOK
    have htg : trimL g = g0 ++ ['.'] := by
      rw [hg0eq]
      exact trimL_group hg0ne hg0head
    have hglen : g.length = g0.length + 2 := by simp [hg0eq]
    rw [htg]
    simp only [List.length_append, List.length_cons, List.length_nil]
    omega
  · rw [hchunks, joinSep_map_trimL 1000 gs _ hgcond ⟨hL, hLeq, hLne, hLhead, hLlen⟩]
    have hblocks : gs.flatten ++ (packGo 1000 (splitOn2 '.' ' ' text) ([], [])).2
        = text ++ ['.', ' '] := by
      rw [hflat]
      simp only [List.nil_append]
      rw [flatten_map_append_sep _ _ hsents_ne, joinSep_splitOn2]
    rw [htr]
    rw [hLeq] at hblocks
    have h2 : ((gs.flatten ++ hL) ++ ['.']) ++ [' '] = (text ++ ['.']) ++ [' '] := by
      simpa [List.append_assoc] using hblocks
    have h3 := congrArg List.dropLast h2
    rw [List.dropLast_concat, List.dropLast_concat] at h3
    simpa [List.append_assoc] using h3

theorem headD_replicate (n : Nat) (c dflt : Char) (h : 0 < n) :
    (List.replicate n c).headD dflt = c := by
  cases n with
  | zero => omega
  | succ m =>
    rw [List.replicate_succ]
    rfl

theorem hasSub_pair_notin (x y : Char) :
    ∀ text : List Char, (∀ ch ∈ text, x ≠ ch) → hasSub [x, y] text = false := by
  intro text
  induction text with
  | nil => intro _; rfl
  | cons c t ih =>
    intro h
    show (List.isPrefixOf [x, y] (c :: t) || hasSub [x, y] t) = false
    rw [ih (fun ch hm => h ch (List.mem_cons_of_mem _ hm))]
    have hxc : x ≠ c := h c (List.mem_cons_self _ _)
    simp [List.isPrefixOf, hxc]

theorem replicate_ne_nil_of_pos {n : Nat} (h : 0 < n) (c : Char) :
    List.replicate n c ≠ [] := by
  intro he
  have := congrArg List.length he
  simp at this
  omega

theorem splitOn2_replicate_chunk (a b c : Char) (hca : c ≠ a) :
    ∀ (n : Nat) (rest : List Char),
      splitOn2 a b (List.replicate n c ++ a :: b :: rest)
        = List.replicate n c :: splitOn2 a b rest := by
  intro n
  induction n with
  | zero =>
    intro rest
    show splitOn2 a b (a :: b :: rest) = [] :: splitOn2 a b rest
    simp only [splitOn2]
    simp
  | succ n ih =>
    intro rest
    rw [List.replicate_succ]
    obtain ⟨d, r2, hdr⟩ : ∃ d r2, List.replicate n c ++ (a :: b :: rest) = d :: r2 := by
      cases n with
      | zero => exact ⟨a, b :: rest, rfl⟩
      | succ m =>
        rw [List.replicate_succ]
        exact ⟨c, _, rfl⟩
    rw [List.cons_append, hdr]
    show splitOn2 a b (c :: d :: r2) = (c :: List.replicate n c) :: splitOn2 a b rest
    simp only [splitOn2]
    rw [if_neg (by rintro ⟨h1, _⟩; exact hca h1)]
    rw [← hdr, ih rest]

theorem splitOn2_replicate_last (a b c : Char) (hca : a ≠ c) (n : Nat) :
    splitOn2 a b (List.replicate n c) = [List.replicate n c] :=
  splitOn2_no_sep a b _ (hasSub_pair_notin a b _ (fun ch hm => by
    rw [List.eq_of_mem_replicate hm]; exact hca))
/-- C3 (counterexample): the 2500-character text of 2500 letters `a` has no
paragraph break and its single paragraph exceeds the limit, yet the chunker
returns one single chunk of 2501 characters — over the 1000-character bound —
and that chunk is the text with a period appended, so the original content is
not reproduced either. -/
theorem chunk_overflow_counterexample :
    (List.replicate 2500 'a').length = 2500 ∧
    hasSub ['\n', '\n'] (List.replicate 2500 'a') = false ∧
    split_outlook (List.replicate 2500 'a') 1000
      = [List.replicate 2500 'a' ++ ['.']] ∧
    1000 < (List.replicate 2500 'a' ++ ['.']).length := by
  have hne : List.replicate 2500 'a' ≠ [] := replicate_ne_nil_of_pos (by omega) 'a'
  have hhead : ((List.replicate 2500 'a').headD ' ').isWhitespace = false := by
    rw [headD_replicate _ _ _ (by omega)]
    decide
  have hnp : hasSub ['\n', '\n'] (List.replicate 2500 'a') = false :=
    hasSub_pair_notin _ _ _ (fun ch hm => by
      rw [List.eq_of_mem_replicate hm]; decide)
  have hdot : hasSub ['.', ' '] (List.replicate 2500 'a') = false :=
    hasSub_pair_notin _ _ _ (fun ch hm => by
      rw [List.eq_of_mem_replicate hm]; decide)
  have hlenR : (List.replicate 2500 'a').length = 2500 := List.length_replicate 2500 'a'
  obtain ⟨R, hR⟩ : ∃ R, List.replicate 2500 'a' = R := ⟨_, rfl⟩
  rw [hR] at hne hhead hnp hdot hlenR ⊢
  have hsents : splitOn2 '.' ' ' R = [R] := splitOn2_no_sep _ _ _ hdot
  have hpar2 : splitOn2 '\n' '\n' R = [R] := splitOn2_no_sep _ _ _ hnp
  have htg : trimL (R ++ ['.', ' ']) = R ++ ['.'] := trimL_group hne hhead
  have htie : (trimL (R ++ ['.', ' '])).isEmpty = false := by
    rw [htg]
    cases R with
    | nil => exact absurd rfl hne
    | cons c t => rfl
  have htl0 : trimL ([] : List Char) = [] := rfl
  have hpk : packGo 1000 [R] ([], []) = ([], R ++ ['.', ' ']) := by
    have hcn : ¬ (([] : List Char) ++ R ++ ['.', ' ']).length ≤ 1000 := by
      simp only [List.nil_append, List.length_append, List.length_cons, List.length_nil]
      omega
    simp only [packGo]
    simp [hcn, htl0]
  have hpr : paraGo 1000 [R] ([], []) = ([], R ++ ['.', ' ']) := by
    have hc1 : (([] : List Char) ++ R ++ ['\n', '\n']).length > 1000 := by
      simp only [List.nil_append, List.length_append, List.length_cons, List.length_nil]
      omega
    have hc2 : R.length > 1000 := by omega
    have hc3 : 998 < R.length := by omega
    simp only [paraGo]
    simp [hsents, htl0, hpk, htie, hc1, hc2, hc3]
  refine ⟨hlenR, hnp, ?_, ?_⟩
  · unfold split_outlook
    rw [if_neg (show ¬ R.length ≤ 1000 by omega), hpar2, hpr]
    simp [htie, htg]
  · simp only [List.length_append, List.length_cons, List.length_nil]
    omega

theorem goodSent_replicate (n : Nat) (h1 : 0 < n) (h2 : n + 2 ≤ 1000) :
    GoodSent 1000 (List.replicate n 'a') := by
  refine ⟨replicate_ne_nil_of_pos h1 'a', ?_, ?_⟩
  · rw [headD_replicate n 'a' ' ' h1]
    decide
  · simp only [List.length_replicate]
    omega

theorem splitOn2_outlookText :
    splitOn2 '.' ' ' outlookText2500 = outlookSentences := by
  show splitOn2 '.' ' ' (joinSep ['.', ' '] outlookSentences) = outlookSentences
  simp only [outlookSentences, joinSep, List.append_assoc, List.cons_append,
    List.nil_append]
  rw [splitOn2_replicate_chunk '.' ' ' 'a' (by decide),
    splitOn2_replicate_chunk '.' ' ' 'a' (by decide),
    splitOn2_replicate_chunk '.' ' ' 'a' (by decide),
    splitOn2_replicate_chunk '.' ' ' 'a' (by decide),
    splitOn2_replicate_last '.' ' ' 'a' (by decide)]

theorem hasSub_pair_append (x y : Char) :
    ∀ (A B : List Char), (∀ ch ∈ A, x ≠ ch) → hasSub [x, y] B = false →
      hasSub [x, y] (A ++ B) = false := by
  intro A
  induction A with
  | nil =>
    intro B _ hB
    simpa using hB
  | cons c t ih =>
    intro B hA hB
    show (List.isPrefixOf [x, y] (c :: (t ++ B)) || hasSub [x, y] (t ++ B)) = false
    rw [ih B (fun ch hm => hA ch (List.mem_cons_of_mem _ hm)) hB]
    have hxc : x ≠ c := hA c (List.mem_cons_self _ _)
    simp [List.isPrefixOf, hxc]

/-- Witness for C3 (amended) on a concrete 2500-character, five-sentence
text. -/
theorem split_outlook_sentence_chunks_witness :
    outlookText2500.length = 2500 ∧
    hasSub ['\n', '\n'] outlookText2500 = false ∧
    (∀ s ∈ splitOn2 '.' ' ' outlookText2500, GoodSent 1000 s) ∧
    ((∀ chunk ∈ split_outlook outlookText2500 1000, chunk.length ≤ 1000) ∧
      joinSep [' '] (split_outlook outlookText2500 1000) = outlookText2500 ++ ['.']) := by
  have h1 : outlookText2500.length = 2500 := by
    simp only [outlookText2500, outlookSentences, joinSep, List.length_append,
      List.length_replicate, List.length_cons, List.length_nil]
  have hrepmem : ∀ n, ∀ ch ∈ List.replicate n 'a', ('\n' : Char) ≠ ch := by
    intro n ch hm
    rw [List.eq_of_mem_replicate hm]
    decide
  have hstep : ∀ (n : Nat) (B : List Char), hasSub ['\n', '\n'] B = false →
      hasSub ['\n', '\n'] (List.replicate n 'a' ++ ('.' :: ' ' :: B)) = false := by
    intro n B hB
    refine hasSub_pair_append _ _ _ _ (hrepmem n) ?_
    exact hasSub_pair_append '\n' '\n' ['.', ' '] B (by decide) hB
  have h2 : hasSub ['\n', '\n'] outlookText2500 = false := by
    show hasSub ['\n', '\n'] (joinSep ['.', ' '] outlookSentences) = false
    simp only [outlookSentences, joinSep, List.append_assoc, List.cons_append,
      List.nil_append]
    exact hstep _ _ (hstep _ _ (hstep _ _ (hstep _ _
      (hasSub_pair_notin _ _ _ (hrepmem 492)))))
  have h3 : ∀ s ∈ splitOn2 '.' ' ' outlookText2500, GoodSent 1000 s := by
    rw [splitOn2_outlookText]
    intro s hm
    simp only [outlookSentences, List.mem_cons, List.not_mem_nil, or_false] at hm
    rcases hm with rfl | rfl | rfl | rfl | rfl <;>
      exact goodSent_replicate _ (by omega) (by omega)
  exact ⟨h1, h2, h3, split_outlook_sentence_chunks outlookText2500 h1 h2 h3⟩
